import Mathlib

/-!
Shallow embedding of `check_files.py` (fedepacher/Check_File_Script).

Python strings are modelled as `List Char` (`PyStr`), the filesystem as an
abstract `FS` record supplying the results of `os.stat`, `os.path.isdir`,
`pwd.getpwuid` and `grp.getgrgid`, and the sequence of `(dirpath, filenames)`
pairs produced by `os.walk` as an explicit input list.  Python `Counter`
objects built from `str.split('/')` are modelled as `Multiset (List Char)`;
`Counter` subtraction is truncated subtraction on multisets and the
`== {}` test is equality with `0`.  Fallible Python code (uncaught
`IndexError` from indexing an empty string, `KeyError` from uid/gid
resolution) is modelled with `Except PyExn`.
-/

namespace CheckFiles

abbrev PyStr := List Char

inductive PyExn where
  | indexError
  | keyError
  deriving DecidableEq, Repr

structure StatInfo where
  st_uid : Nat
  st_gid : Nat
  st_mode : Nat
  deriving DecidableEq, Repr

/-- Result of `os.stat` on a path: the target may have vanished
(`FileNotFoundError`), the read may fail with another `OSError`
(permission denied), or a stat record is returned. -/
inductive StatResult where
  | notFound
  | permDenied
  | found (st : StatInfo)
  deriving DecidableEq, Repr

/-- Abstract filesystem facts the script consumes.  `stat` models `os.stat`
(which follows symbolic links), `isdir` models `os.path.isdir` (also
link-following, total, never raising), `getpwuid`/`getgrgid` model name
resolution, returning `none` where Python raises `KeyError`. -/
structure FS where
  stat : PyStr → StatResult
  isdir : PyStr → Bool
  getpwuid : Nat → Option PyStr
  getgrgid : Nat → Option PyStr

/-- The five-field dictionary returned by `get_data_information`; each field
is `Option PyStr` because the `FileNotFoundError` branch fills every field
with Python `None`. -/
structure Record where
  group : Option PyStr
  mode : Option PyStr
  type : Option PyStr
  user : Option PyStr
  prot : Option PyStr
  deriving DecidableEq, Repr

/-- `_filemode_list`: the ordered table of (bitmask, character) rules, one
inner list per output position, first match wins, `'-'` as default.
Dict iteration order in Python is insertion order, preserved here. -/
def _filemode_list : List (List (Nat × Char)) := [
  [(0o120000, 'l'), (0o100000, '-'), (0o060000, 'b'),
   (0o040000, 'd'), (0o020000, 'c'), (0o010000, 'p')],
  [(0o400, 'r')],
  [(0o200, 'w')],
  [(0o4100, 's'), (0o4000, 'S'), (0o100, 'x')],
  [(0o40, 'r')],
  [(0o20, 'w')],
  [(0o2010, 's'), (0o2000, 'S'), (0o10, 'x')],
  [(0o4, 'r')],
  [(0o2, 'w')],
  [(0o1001, 't'), (0o1000, 'T'), (0o1, 'x')]
]

/-- The inner loop of `get_filemode`: first `(k, v)` with `mode & k == k`
wins, `'-'` if no entry matches. -/
def firstMode : List (Nat × Char) → Nat → Char
  | [], _ => '-'
  | (k, v) :: rest, mode => if mode &&& k == k then v else firstMode rest mode

/-- `get_filemode(mode)`: one character per table row. -/
def get_filemode (mode : Nat) : PyStr :=
  _filemode_list.map (fun items => firstMode items mode)

/-- Character for one octal digit (only applied to `n < 8`). -/
def digitChar (n : Nat) : Char := Char.ofNat (48 + n)

/-- Worker for `octDigits`: structural recursion on a fuel argument that is
always at least the number reduced, so the zero-fuel branch is only reached
at `n = 0`. -/
def octDigitsGo : Nat → Nat → PyStr
  | 0, n => [digitChar (n % 8)]
  | fuel + 1, n =>
    if n < 8 then [digitChar n]
    else octDigitsGo fuel (n / 8) ++ [digitChar (n % 8)]

/-- Minimal octal digit string of `n`, most significant first (`"0"` for 0),
mirroring the digits of Python's `oct`. -/
def octDigits (n : Nat) : PyStr := octDigitsGo n n

/-- `str(oct(n)).replace('o', '')`: the `0o` prefix loses its `o`, leaving a
leading `'0'` before the octal digits. -/
def pyOct (n : Nat) : PyStr := '0' :: octDigits n

/-- The `mode` computation of `get_data_information`:
`stat.S_IMODE` masks with `0o7777`; then the last three characters are kept
when the string is longer than three characters. -/
def modeOctal (st_mode : Nat) : PyStr :=
  let mode_str := pyOct (st_mode &&& 0o7777)
  if mode_str.length > 3 then mode_str.drop (mode_str.length - 3) else mode_str

/-- `get_data_information(item)`.  `FileNotFoundError` yields the all-`None`
dictionary; any other `OSError` (permission denied) falls through the bare
`pass`, returning Python `None` (`Option.none` here); a `KeyError` from
`pwd.getpwuid`/`grp.getgrgid` is uncaught and propagates. -/
def get_data_information (fs : FS) (item : PyStr) : Except PyExn (Option Record) :=
  match fs.stat item with
  | .notFound => .ok (some ⟨none, none, none, none, none⟩)
  | .permDenied => .ok none
  | .found st =>
    match fs.getpwuid st.st_uid with
    | none => .error .keyError
    | some user =>
      match fs.getgrgid st.st_gid with
      | none => .error .keyError
      | some group =>
        let mode := modeOctal st.st_mode
        let protection := get_filemode st.st_mode
        let type := if fs.isdir item then "directory".toList else "file".toList
        .ok (some ⟨some group, some mode, some type, some user, some protection⟩)

/-- `remove_initial_bar_chars(path)`: `path[0]` raises `IndexError` on the
empty string; otherwise one leading `'/'` is dropped if present. -/
def remove_initial_bar_chars (path : PyStr) : Except PyExn PyStr :=
  match path with
  | [] => .error .indexError
  | c :: cs => .ok (if c = '/' then cs else c :: cs)

/-- `remove_ending_bar_chars(path)`: `path[len(path) - 1]` raises
`IndexError` on the empty string; otherwise one trailing `'/'` is dropped
if present. -/
def remove_ending_bar_chars (path : PyStr) : Except PyExn PyStr :=
  match path with
  | [] => .error .indexError
  | c :: cs =>
    .ok (if (c :: cs).getLast? = some '/' then (c :: cs).dropLast else c :: cs)

/-- Python `str.split(sep)` for a one-character separator. -/
def pySplit (sep : Char) : List Char → List PyStr
  | [] => [[]]
  | c :: cs =>
    match pySplit sep cs with
    | [] => [[]]
    | h :: t => if c = sep then [] :: h :: t else (c :: h) :: t

/-- `collections.Counter` built from a list: a multiset. -/
def counter (l : List PyStr) : Multiset PyStr := ↑l

/-- The inner `for item_ignored in ignore_folders` loop of
`get_current_items`, threading `flag_no_file_detected` exactly as the code
does: `Counter(rule.split('/')) - path_list == {}` breaks with `True`, a
non-match resets the flag to `False`, an empty rule list leaves the flag as
it was. -/
def ignoreLoop (path_list : Multiset PyStr) (rules : List PyStr)
    (flag0 : Bool) : Except PyExn Bool :=
  match rules with
  | [] => .ok flag0
  | r :: rest => do
    let r' ← remove_initial_bar_chars r
    if counter (pySplit '/' r') - path_list = 0 then .ok true
    else ignoreLoop path_list rest false

/-- The snapshot dictionary: insertion-ordered, keyed by path. -/
abbrev SnapDict := List (PyStr × Option Record)

deriving instance DecidableEq for Except

/-- Python dict assignment `d[k] = v`: replace the value at an existing key,
otherwise append at the end. -/
def dictInsert (d : SnapDict) (k : PyStr) (v : Option Record) : SnapDict :=
  if (d.map Prod.fst).contains k then
    d.map (fun p => if p.1 = k then (k, v) else p)
  else d ++ [(k, v)]

/-- `file_path.endswith('.pyc')`. -/
def endswithPyc (p : PyStr) : Bool := ".pyc".toList.isSuffixOf p

/-- The `for filename in filenames` loop of `get_current_items`. -/
def processFiles (fs : FS) (ignore_folders : List PyStr) (dirpath : PyStr)
    (filenames : List PyStr) (d : SnapDict) : Except PyExn SnapDict :=
  match filenames with
  | [] => .ok d
  | f :: rest => do
    let file_path := dirpath ++ '/' :: f
    let d' ←
      if !endswithPyc file_path && !ignore_folders.contains file_path then do
        let info ← get_data_information fs file_path
        pure (dictInsert d file_path info)
      else
        pure d
    processFiles fs ignore_folders dirpath rest d'

/-- One iteration of the `os.walk` loop in `get_current_items`: strip the
trailing then the leading separator, build the component `Counter`, run the
ignore loop, and when the flag is clear record the directory and its
surviving files. -/
def walkStep (fs : FS) (ignore_folders : List PyStr)
    (st : SnapDict × Bool) (entry : PyStr × List PyStr) :
    Except PyExn (SnapDict × Bool) := do
  let (files_items_dict, flag0) := st
  let (dirpath0, filenames) := entry
  let dirpath ← remove_ending_bar_chars dirpath0
  let aux_dirpath ← remove_initial_bar_chars dirpath
  let path_list := counter (pySplit '/' aux_dirpath)
  let flag ← ignoreLoop path_list ignore_folders flag0
  if flag then
    pure (files_items_dict, flag)
  else do
    let info ← get_data_information fs dirpath
    let d1 := dictInsert files_items_dict dirpath info
    let d2 ← processFiles fs ignore_folders dirpath filenames d1
    pure (d2, flag)

/-- `get_current_items(path, ignore_folders)`, with the `os.walk` output
supplied as the explicit list `walkList` of `(dirpath, filenames)` pairs in
visit order. -/
def get_current_items (fs : FS) (walkList : List (PyStr × List PyStr))
    (ignore_folders : List PyStr) : Except PyExn SnapDict := do
  let (d, _) ← walkList.foldlM (walkStep fs ignore_folders) ([], false)
  pure d

/-! ### Derived, total descriptions of the same computations

These definitions restate the partial (`Except`) code paths as total
functions; the lemmas below prove them equal to the code on the inputs where
the code does not raise. -/

/-- Total counterpart of `remove_initial_bar_chars` (defined on every list;
the code raises `IndexError` on `[]`). -/
def stripLeading : PyStr → PyStr
  | [] => []
  | c :: cs => if c = '/' then cs else c :: cs

/-- Total counterpart of `remove_ending_bar_chars`. -/
def stripTrailing (p : PyStr) : PyStr :=
  if p.getLast? = some '/' then p.dropLast else p

/-- Component multiset of an exclusion rule, as the ignore loop builds it:
leading separator stripped, then split on `'/'`. -/
def ruleComps (r : PyStr) : Multiset PyStr := counter (pySplit '/' (stripLeading r))

/-- Component multiset the walk builds for a raw `os.walk` dirpath:
trailing separator stripped, then leading separator stripped, then split. -/
def dirComps (dp0 : PyStr) : Multiset PyStr :=
  counter (pySplit '/' (stripLeading (stripTrailing dp0)))

/-- Component multiset of an already trailing-stripped snapshot key. -/
def keyComps (k : PyStr) : Multiset PyStr := counter (pySplit '/' (stripLeading k))

/-- The per-directory exclusion decision: some rule's component multiset is
contained in the directory's component multiset. -/
def excludedB (rules : List PyStr) (dp0 : PyStr) : Bool :=
  rules.any (fun r => decide (ruleComps r ≤ dirComps dp0))

/-- The all-`None` dictionary produced by the `FileNotFoundError` branch. -/
def nullRec : Record := ⟨none, none, none, none, none⟩

/-- The all-`'-'` dictionary the serialization loop substitutes when a
path's record is Python `None`. -/
def sentinelRec : Record :=
  ⟨some "-".toList, some "-".toList, some "-".toList, some "-".toList, some "-".toList⟩

/-- The per-path field assembly of the `__main__` serialization loop: each
field read `current_items[name][field]` raises `TypeError` exactly when the
stored value is `None`, in which case every field becomes `'-'`. -/
def describeOf (v : Option Record) : Record :=
  match v with
  | none => sentinelRec
  | some r => r

/-- Total counterpart of `get_data_information`, used to state the walk's
behaviour when no `KeyError` occurs. -/
def refInfo (fs : FS) (item : PyStr) : Option Record :=
  match fs.stat item with
  | .notFound => some nullRec
  | .permDenied => none
  | .found st =>
    match fs.getpwuid st.st_uid, fs.getgrgid st.st_gid with
    | some user, some group =>
      some ⟨some group, some (modeOctal st.st_mode),
        some (if fs.isdir item then "directory".toList else "file".toList),
        some user, some (get_filemode st.st_mode)⟩
    | _, _ => none

/-- Every uid/gid appearing on a stat-able path resolves to a name, so
`pwd.getpwuid`/`grp.getgrgid` never raise. -/
def Resolvable (fs : FS) : Prop :=
  ∀ p st, fs.stat p = .found st →
    (fs.getpwuid st.st_uid).isSome ∧ (fs.getgrgid st.st_gid).isSome

/-- Well-formedness of the `os.walk` output: no dirpath is the empty string
and none is the bare `"/"` (whose trailing strip leaves the empty string and
makes `remove_initial_bar_chars` raise). -/
abbrev WalkWF (wl : List (PyStr × List PyStr)) : Prop :=
  ∀ e ∈ wl, e.1 ≠ [] ∧ stripTrailing e.1 ≠ []

/-- Well-formedness of the exclusion list: no rule is the empty string
(an empty rule makes `remove_initial_bar_chars` raise). -/
abbrev RulesWF (rules : List PyStr) : Prop := ∀ r ∈ rules, r ≠ []

/-- Total counterpart of the `for filename in filenames` loop. -/
def fileFold (fs : FS) (rules : List PyStr) (dp : PyStr)
    (files : List PyStr) (d : SnapDict) : SnapDict :=
  files.foldl (fun acc f =>
    let fp := dp ++ '/' :: f
    if !endswithPyc fp && !rules.contains fp then dictInsert acc fp (refInfo fs fp)
    else acc) d

/-- Total counterpart of one `os.walk` iteration. -/
def refStep (fs : FS) (rules : List PyStr) (d : SnapDict)
    (entry : PyStr × List PyStr) : SnapDict :=
  let (dp0, files) := entry
  if excludedB rules dp0 then d
  else
    let dp := stripTrailing dp0
    fileFold fs rules dp files (dictInsert d dp (refInfo fs dp))

/-- Total counterpart of `get_current_items` on a well-formed walk. -/
def snapshotRef (fs : FS) (wl : List (PyStr × List PyStr))
    (rules : List PyStr) : SnapDict :=
  wl.foldl (refStep fs rules) []

/-- Keys of a snapshot dictionary. -/
def keys (d : SnapDict) : List PyStr := d.map Prod.fst

/-- The file-type values `os.stat` can report on a POSIX system when links
are followed: socket, regular, block, directory, character, fifo — and not
the symbolic-link type, since `os.stat` resolves links. -/
def validStatTypes : List Nat :=
  [0o140000, 0o100000, 0o060000, 0o040000, 0o020000, 0o010000]

/-- `os.stat` follows symbolic links, so the type field of any successful
stat is one of the non-link types. -/
def StatNeverLink (fs : FS) : Prop :=
  ∀ p st, fs.stat p = .found st → (st.st_mode &&& 0o170000) ∈ validStatTypes

/-- `os.path.isdir` also follows links and precedes no failure: when it
reports a directory, the stat of the same path succeeded. -/
def IsdirCoherent (fs : FS) : Prop :=
  ∀ p, fs.isdir p = true → ∃ st, fs.stat p = .found st

/-! ### Concrete filesystem fixtures used by counterexamples and witnesses -/

/-- A filesystem on which every stat reports a vanished path. -/
def fsMissing : FS :=
  { stat := fun _ => .notFound
    isdir := fun _ => false
    getpwuid := fun _ => none
    getgrgid := fun _ => none }

/-- The `/tmp/demo` tree of the spec's examples: directory `/tmp/demo/bin`
(mode 0750, owner root, group wazuh) holding file `/tmp/demo/bin/run.sh`
(mode 0644), under root directory `/tmp/demo` (mode 0755). -/
def fsDemo : FS :=
  { stat := fun p =>
      if p = "/tmp/demo".toList then .found ⟨0, 1, 0o40755⟩
      else if p = "/tmp/demo/bin".toList then .found ⟨0, 1, 0o40750⟩
      else if p = "/tmp/demo/bin/run.sh".toList then .found ⟨0, 1, 0o100644⟩
      else .notFound
    isdir := fun p => p = "/tmp/demo".toList || p = "/tmp/demo/bin".toList
    getpwuid := fun u => if u = 0 then some "root".toList else none
    getgrgid := fun g => if g = 1 then some "wazuh".toList else none }

/-- The `os.walk` output for `/tmp/demo`. -/
def wlDemo : List (PyStr × List PyStr) :=
  [("/tmp/demo".toList, []), ("/tmp/demo/bin".toList, ["run.sh".toList])]

/-- The record the extractor produces for a directory with mode `0o755`,
owner `root`, group `wazuh`. -/
def recDir755 : Record :=
  ⟨some "wazuh".toList, some "755".toList, some "directory".toList,
   some "root".toList, some "drwxr-xr-x".toList⟩

/-- The snapshot produced for `/tmp/demo` with `/tmp/demo/bin` excluded. -/
def snapDemoExcl : SnapDict := [("/tmp/demo".toList, some recDir755)]

/-- A root directory `/r` holding one file `/r/f.txt` whose stat is denied. -/
def fsPerm : FS :=
  { stat := fun p =>
      if p = "/r".toList then .found ⟨0, 1, 0o40755⟩
      else if p = "/r/f.txt".toList then .permDenied
      else .notFound
    isdir := fun p => p = "/r".toList
    getpwuid := fun u => if u = 0 then some "root".toList else none
    getgrgid := fun g => if g = 1 then some "wazuh".toList else none }

/-- The `os.walk` output for `/r`. -/
def wlPerm : List (PyStr × List PyStr) := [("/r".toList, ["f.txt".toList])]

/-- The snapshot produced for `/r`: the permission-denied file is a key
bound to Python `None`. -/
def snapPerm : SnapDict := [("/r".toList, some recDir755), ("/r/f.txt".toList, none)]

/-- A file `/f` whose permission bits are `0o005`: its octal rendering has
two characters. -/
def fsLowMode : FS :=
  { stat := fun p => if p = "/f".toList then .found ⟨0, 1, 0o100005⟩ else .notFound
    isdir := fun _ => false
    getpwuid := fun u => if u = 0 then some "root".toList else none
    getgrgid := fun g => if g = 1 then some "wazuh".toList else none }

/-- A setuid executable `/s` with mode bits `0o4755`. -/
def fsSetuid : FS :=
  { stat := fun p => if p = "/s".toList then .found ⟨0, 1, 0o104755⟩ else .notFound
    isdir := fun _ => false
    getpwuid := fun u => if u = 0 then some "root".toList else none
    getgrgid := fun g => if g = 1 then some "wazuh".toList else none }

/-- A file `/u` owned by uid 999, which the password database cannot
resolve. -/
def fsUid : FS :=
  { stat := fun p => if p = "/u".toList then .found ⟨999, 1, 0o100644⟩ else .notFound
    isdir := fun _ => false
    getpwuid := fun _ => none
    getgrgid := fun g => if g = 1 then some "wazuh".toList else none }

/-- A single directory `/a`. -/
def fsA : FS :=
  { stat := fun p => if p = "/a".toList then .found ⟨0, 1, 0o40755⟩ else .notFound
    isdir := fun p => p = "/a".toList
    getpwuid := fun u => if u = 0 then some "root".toList else none
    getgrgid := fun g => if g = 1 then some "wazuh".toList else none }

/-- A path `/ln` that is a symbolic link to a directory: the link-following
`os.stat` and `os.path.isdir` both report the target directory. -/
def fsLink : FS :=
  { stat := fun p => if p = "/ln".toList then .found ⟨0, 1, 0o40755⟩ else .notFound
    isdir := fun p => p = "/ln".toList
    getpwuid := fun u => if u = 0 then some "root".toList else none
    getgrgid := fun g => if g = 1 then some "wazuh".toList else none }

/-! ### Bridging lemmas: the `Except`-valued code agrees with the total
reference functions away from the raising inputs. -/

theorem remove_initial_ok (p : PyStr) (h : p ≠ []) :
    remove_initial_bar_chars p = .ok (stripLeading p) := by
  cases p with
  | nil => exact absurd rfl h
  | cons c cs => rfl

theorem remove_ending_ok (p : PyStr) (h : p ≠ []) :
    remove_ending_bar_chars p = .ok (stripTrailing p) := by
  cases p with
  | nil => exact absurd rfl h
  | cons c cs => rfl

theorem ignoreLoop_eq : ∀ (rules : List PyStr) (pl : Multiset PyStr) (f0 : Bool),
    RulesWF rules → (rules = [] → f0 = false) →
    ignoreLoop pl rules f0 = .ok (rules.any (fun r => decide (ruleComps r ≤ pl)))
  | [], pl, f0, _, h0 => by simp [ignoreLoop, h0 rfl]
  | r :: rest, pl, f0, hr, _ => by
    have hrne : r ≠ [] := hr r (by simp)
    have hrest : RulesWF rest := fun x hx => hr x (by simp [hx])
    have hrec := ignoreLoop_eq rest pl false hrest (fun _ => rfl)
    simp only [ignoreLoop, remove_initial_ok r hrne, bind, Except.bind]
    by_cases hc : ruleComps r ≤ pl
    · rw [if_pos (show counter (pySplit '/' (stripLeading r)) - pl = 0 from
        tsub_eq_zero_of_le hc)]
      simp [List.any_cons, hc]
    · have hz : ¬ counter (pySplit '/' (stripLeading r)) - pl = 0 := by
        intro h0
        exact hc (tsub_eq_zero_iff_le.mp h0)
      rw [if_neg hz, hrec]
      simp [List.any_cons, hc]

theorem gdi_eq_refInfo (fs : FS) (p : PyStr) (hres : Resolvable fs) :
    get_data_information fs p = .ok (refInfo fs p) := by
  unfold get_data_information refInfo
  cases hst : fs.stat p with
  | notFound => rfl
  | permDenied => rfl
  | found st =>
    obtain ⟨hu, hg⟩ := hres p st hst
    cases hu' : fs.getpwuid st.st_uid with
    | none => rw [hu'] at hu; simp at hu
    | some user =>
      cases hg' : fs.getgrgid st.st_gid with
      | none => rw [hg'] at hg; simp at hg
      | some group => simp [hu', hg']

theorem processFiles_eq :
    ∀ (files : List PyStr) (fs : FS) (rules : List PyStr) (dp : PyStr) (d : SnapDict),
    Resolvable fs →
    processFiles fs rules dp files d = .ok (fileFold fs rules dp files d)
  | [], _, _, _, _, _ => rfl
  | f :: rest, fs, rules, dp, d, hres => by
    have hrec := processFiles_eq rest fs rules dp
    simp only [processFiles, fileFold, List.foldl_cons]
    by_cases hcond : (!endswithPyc (dp ++ '/' :: f) && !rules.contains (dp ++ '/' :: f)) = true
    · simp only [hcond, if_true, gdi_eq_refInfo fs _ hres, Except.bind, bind, pure]
      exact hrec _ hres
    · simp only [hcond, if_false, Except.bind, bind, pure]
      simpa [hcond, fileFold] using hrec d hres

theorem walkStep_eq (fs : FS) (rules : List PyStr) (d : SnapDict) (f0 : Bool)
    (dp0 : PyStr) (files : List PyStr)
    (hres : Resolvable fs) (h1 : dp0 ≠ []) (h2 : stripTrailing dp0 ≠ [])
    (hr : RulesWF rules) (h0 : rules = [] → f0 = false) :
    walkStep fs rules (d, f0) (dp0, files) =
      .ok (refStep fs rules d (dp0, files), excludedB rules dp0) := by
  have hloop := ignoreLoop_eq rules
    (counter (pySplit '/' (stripLeading (stripTrailing dp0)))) f0 hr h0
  simp only [walkStep, remove_ending_ok dp0 h1, remove_initial_ok _ h2, Except.bind,
    bind, hloop]
  by_cases hex : excludedB rules dp0 = true
  · have heq : (rules.any (fun r =>
        decide (ruleComps r ≤ counter (pySplit '/' (stripLeading (stripTrailing dp0)))))) =
        excludedB rules dp0 := rfl
    rw [heq, hex]
    simp only [if_true, refStep, hex]
    rfl
  · have heq : (rules.any (fun r =>
        decide (ruleComps r ≤ counter (pySplit '/' (stripLeading (stripTrailing dp0)))))) =
        excludedB rules dp0 := rfl
    rw [heq]
    simp only [Bool.not_eq_true] at hex
    rw [hex]
    simp only [if_false, gdi_eq_refInfo fs _ hres, Except.bind,
      processFiles_eq files fs rules _ _ hres, refStep, hex]
    rfl

theorem foldlM_walk_eq :
    ∀ (wl : List (PyStr × List PyStr)) (fs : FS) (rules : List PyStr)
      (d : SnapDict) (f0 : Bool),
    Resolvable fs → WalkWF wl → RulesWF rules → (rules = [] → f0 = false) →
    ∃ flag, List.foldlM (walkStep fs rules) (d, f0) wl =
        .ok (wl.foldl (refStep fs rules) d, flag) ∧ (rules = [] → flag = false)
  | [], fs, rules, d, f0, _, _, _, h0 => ⟨f0, rfl, h0⟩
  | e :: rest, fs, rules, d, f0, hres, hwf, hr, h0 => by
    obtain ⟨h1, h2⟩ := hwf e (by simp)
    have hwfr : WalkWF rest := fun x hx => hwf x (by simp [hx])
    have hstep := walkStep_eq fs rules d f0 e.1 e.2 hres h1 h2 hr h0
    obtain ⟨flag, hfold, hflag⟩ := foldlM_walk_eq rest fs rules
      (refStep fs rules d e) (excludedB rules e.1) hres hwfr hr
      (fun hnil => by simp [excludedB, hnil])
    refine ⟨flag, ?_, hflag⟩
    rw [List.foldlM_cons]
    rw [show (e.1, e.2) = e from rfl] at hstep
    rw [hstep]
    simpa using hfold

theorem get_current_items_eq (fs : FS) (wl : List (PyStr × List PyStr))
    (rules : List PyStr) (hres : Resolvable fs) (hwf : WalkWF wl)
    (hr : RulesWF rules) :
    get_current_items fs wl rules = .ok (snapshotRef fs wl rules) := by
  obtain ⟨flag, hfold, _⟩ := foldlM_walk_eq wl fs rules [] false hres hwf hr
    (fun _ => rfl)
  simp only [get_current_items, hfold, Except.bind, bind, snapshotRef]
  rfl

/-! ### Shape of the octal and symbolic mode strings -/

theorem octDigitsGo_fuel : ∀ (fuel fuel' n : Nat), n ≤ fuel → n ≤ fuel' →
    octDigitsGo fuel n = octDigitsGo fuel' n
  | 0, 0, _, _, _ => rfl
  | 0, fuel' + 1, n, hf, _ => by
    interval_cases n
    simp [octDigitsGo]
  | fuel + 1, 0, n, _, hf' => by
    interval_cases n
    simp [octDigitsGo]
  | fuel + 1, fuel' + 1, n, hf, hf' => by
    simp only [octDigitsGo]
    by_cases h8 : n < 8
    · simp [h8]
    · have hdiv1 : n / 8 ≤ fuel := Nat.le_of_lt_succ
        (Nat.lt_of_lt_of_le (Nat.div_lt_self (by omega) (by omega)) hf)
      have hdiv2 : n / 8 ≤ fuel' := Nat.le_of_lt_succ
        (Nat.lt_of_lt_of_le (Nat.div_lt_self (by omega) (by omega)) hf')
      rw [octDigitsGo_fuel fuel fuel' (n / 8) hdiv1 hdiv2]

theorem octDigits_eq (n : Nat) :
    octDigits n =
      if n < 8 then [digitChar n] else octDigits (n / 8) ++ [digitChar (n % 8)] := by
  by_cases h8 : n < 8
  · cases n with
    | zero => simp [octDigits, octDigitsGo, h8]
    | succ m =>
      simp only [octDigits, octDigitsGo, h8, if_pos, if_true]
  · have h0 : n ≠ 0 := by omega
    obtain ⟨m, rfl⟩ : ∃ m, n = m + 1 := ⟨n - 1, by omega⟩
    simp only [octDigits, octDigitsGo, h8, if_false, if_neg]
    rw [octDigitsGo_fuel m ((m + 1) / 8) ((m + 1) / 8)
      (Nat.le_of_lt_succ (Nat.div_lt_self (by omega) (by omega))) (Nat.le_refl _)]

theorem octDigits_length_lt8 (n : Nat) (h : n < 8) : (octDigits n).length = 1 := by
  rw [octDigits_eq, if_pos h]
  rfl

theorem octDigits_length_ge8 (n : Nat) (h : 8 ≤ n) :
    (octDigits n).length = (octDigits (n / 8)).length + 1 := by
  rw [octDigits_eq, if_neg (by omega)]
  simp

theorem octDigits_length_64 (n : Nat) (h8 : 8 ≤ n) (h64 : n < 64) :
    (octDigits n).length = 2 := by
  rw [octDigits_length_ge8 n h8, octDigits_length_lt8 (n / 8) (by omega)]

theorem octDigits_length_512 (n : Nat) (h64 : 64 ≤ n) (h512 : n < 512) :
    (octDigits n).length = 3 := by
  rw [octDigits_length_ge8 n (by omega), octDigits_length_64 (n / 8) (by omega) (by omega)]

theorem octDigits_length_4096 (n : Nat) (h512 : 512 ≤ n) (h4096 : n < 4096) :
    (octDigits n).length = 4 := by
  rw [octDigits_length_ge8 n (by omega), octDigits_length_512 (n / 8) (by omega) (by omega)]

theorem digitChar_mem_oct (d : Nat) (h : d < 8) : digitChar d ∈ "01234567".toList := by
  interval_cases d <;> decide

theorem octDigits_mem_oct (n : Nat) : ∀ c ∈ octDigits n, c ∈ "01234567".toList := by
  induction n using Nat.strong_induction_on with
  | _ n ih =>
    intro c hc
    rw [octDigits_eq] at hc
    by_cases h8 : n < 8
    · rw [if_pos h8] at hc
      simp only [List.mem_singleton] at hc
      exact hc ▸ digitChar_mem_oct n h8
    · rw [if_neg h8] at hc
      rcases List.mem_append.mp hc with h | h
      · exact ih (n / 8) (Nat.div_lt_self (by omega) (by omega)) c h
      · simp only [List.mem_singleton] at h
        exact h ▸ digitChar_mem_oct (n % 8) (Nat.mod_lt n (by omega))

theorem imode_lt_4096 (m : Nat) : m &&& 0o7777 < 4096 :=
  Nat.lt_succ_of_le (le_trans Nat.and_le_right (by omega))

theorem modeOctal_length (m : Nat) :
    (modeOctal m).length = if m &&& 0o7777 < 8 then 2 else 3 := by
  have h4096 := imode_lt_4096 m
  unfold modeOctal pyOct
  by_cases h8 : m &&& 0o7777 < 8
  · rw [if_pos h8]
    simp [octDigits_length_lt8 _ h8]
  · rw [if_neg h8]
    by_cases h64 : m &&& 0o7777 < 64
    · simp [octDigits_length_64 _ (by omega) h64]
    · by_cases h512 : m &&& 0o7777 < 512
      · simp [octDigits_length_512 _ (by omega) h512]
      · simp [octDigits_length_4096 _ (by omega) h4096]

theorem modeOctal_mem_oct (m : Nat) : ∀ c ∈ modeOctal m, c ∈ "01234567".toList := by
  intro c hc
  unfold modeOctal pyOct at hc
  have hbase : ∀ x ∈ '0' :: octDigits (m &&& 0o7777), x ∈ "01234567".toList := by
    intro x hx
    rcases List.mem_cons.mp hx with h | h
    · rw [h]; decide
    · exact octDigits_mem_oct _ x h
  by_cases hlen : ('0' :: octDigits (m &&& 0o7777)).length > 3
  · rw [if_pos hlen] at hc
    exact hbase c (List.mem_of_mem_drop hc)
  · rw [if_neg hlen] at hc
    exact hbase c hc

theorem get_filemode_length (m : Nat) : (get_filemode m).length = 10 := by
  simp [get_filemode, _filemode_list]

/-! ### Splitting and component-multiset lemmas -/

theorem pySplit_ne_nil (sep : Char) : ∀ s : List Char, pySplit sep s ≠ []
  | [] => by simp [pySplit]
  | c :: cs => by
    have := pySplit_ne_nil sep cs
    simp only [pySplit]
    cases h : pySplit sep cs with
    | nil => exact absurd h this
    | cons hd tl =>
      by_cases hc : c = sep <;> simp [hc]

theorem pySplit_append (sep : Char) :
    ∀ a b : List Char, pySplit sep (a ++ sep :: b) = pySplit sep a ++ pySplit sep b
  | [], b => by
    simp only [List.nil_append, pySplit]
    cases h : pySplit sep b with
    | nil => exact absurd h (pySplit_ne_nil sep b)
    | cons hd tl => simp
  | c :: a', b => by
    have hrec := pySplit_append sep a' b
    cases h : pySplit sep a' with
    | nil => exact absurd h (pySplit_ne_nil sep a')
    | cons hd tl =>
      rw [h] at hrec
      simp only [List.cons_append, pySplit, hrec, h]
      by_cases hc : c = sep <;> simp [hc, hrec]

theorem stripLeading_append (a b : PyStr) (h : a ≠ []) :
    stripLeading (a ++ b) = stripLeading a ++ b := by
  cases a with
  | nil => exact absurd rfl h
  | cons c cs =>
    simp only [List.cons_append, stripLeading]
    by_cases hc : c = '/' <;> simp [hc]

theorem counter_append (l1 l2 : List PyStr) :
    counter (l1 ++ l2) = counter l1 + counter l2 := rfl

theorem keyComps_extend (D rest : PyStr) (h : D ≠ []) :
    keyComps (D ++ '/' :: rest) = keyComps D + counter (pySplit '/' rest) := by
  unfold keyComps
  rw [stripLeading_append D ('/' :: rest) h, pySplit_append, counter_append]

theorem keyComps_le_extend (D rest : PyStr) (h : D ≠ []) :
    keyComps D ≤ keyComps (D ++ '/' :: rest) := by
  rw [keyComps_extend D rest h]
  exact Multiset.le_add_right _ _

/-- If a path splits both as `A ++ '/' :: f` with `f` separator-free and as
`D ++ '/' :: rest`, then `A` is `D` itself or extends `D` across a
separator. -/
theorem append_slash_cases :
    ∀ (A f D rest : PyStr), '/' ∉ f → A ++ '/' :: f = D ++ '/' :: rest →
      A = D ∨ ∃ r, A = D ++ '/' :: r
  | [], f, D, rest, hf, heq => by
    cases D with
    | nil => exact Or.inl rfl
    | cons d D' =>
      exfalso
      simp only [List.nil_append, List.cons_append, List.cons.injEq] at heq
      obtain ⟨hd, hf'⟩ := heq
      exact hf (hf' ▸ List.mem_append.mpr (Or.inr (List.mem_cons_self _ _)))
  | a :: A', f, D, rest, hf, heq => by
    cases D with
    | nil =>
      simp only [List.cons_append, List.nil_append, List.cons.injEq] at heq
      exact Or.inr ⟨A', by simp [heq.1]⟩
    | cons d D' =>
      simp only [List.cons_append, List.cons.injEq] at heq
      obtain ⟨had, htail⟩ := heq
      rcases append_slash_cases A' f D' rest hf htail with h | ⟨r, hr⟩
      · exact Or.inl (by simp [had, h])
      · exact Or.inr ⟨r, by simp [had, hr]⟩

/-! ### Dictionary and snapshot key lemmas -/

theorem mem_keys_dictInsert_iff (d : SnapDict) (k : PyStr) (v : Option Record)
    (x : PyStr) : x ∈ keys (dictInsert d k v) ↔ x ∈ keys d ∨ x = k := by
  unfold dictInsert keys
  by_cases hk : (d.map Prod.fst).contains k
  · rw [if_pos hk]
    have hkm : k ∈ d.map Prod.fst := by simpa using hk
    constructor
    · intro hx
      rw [List.map_map] at hx
      obtain ⟨p, hp, hpx⟩ := List.mem_map.mp hx
      by_cases hpk : p.1 = k
      · simp only [Function.comp_apply, if_pos hpk] at hpx
        exact Or.inr hpx.symm
      · simp only [Function.comp_apply, if_neg hpk] at hpx
        exact Or.inl (hpx ▸ List.mem_map.mpr ⟨p, hp, rfl⟩)
    · intro hx
      rw [List.map_map]
      rcases hx with hx | rfl
      · obtain ⟨p, hp, hpx⟩ := List.mem_map.mp hx
        refine List.mem_map.mpr ⟨p, hp, ?_⟩
        by_cases hpk : p.1 = k
        · simp only [Function.comp_apply, if_pos hpk]
          rw [← hpx, hpk]
        · simp only [Function.comp_apply, if_neg hpk]
          exact hpx
      · obtain ⟨p, hp, hpk⟩ := List.mem_map.mp hkm
        refine List.mem_map.mpr ⟨p, hp, ?_⟩
        simp [Function.comp_apply, if_pos hpk, hpk]
  · rw [if_neg hk]
    simp

theorem mem_keys_fileFold_mono (fs : FS) (rules : List PyStr) (dp : PyStr) :
    ∀ (files : List PyStr) (d : SnapDict) (x : PyStr),
    x ∈ keys d → x ∈ keys (fileFold fs rules dp files d)
  | [], d, x, hx => hx
  | f :: rest, d, x, hx => by
    simp only [fileFold, List.foldl_cons]
    apply mem_keys_fileFold_mono fs rules dp rest
    by_cases hc : (!endswithPyc (dp ++ '/' :: f) && !rules.contains (dp ++ '/' :: f)) = true
    · simp only [hc, if_true]
      exact (mem_keys_dictInsert_iff _ _ _ x).mpr (Or.inl hx)
    · simp only [hc, if_false]
      exact hx

theorem mem_keys_fileFold_self (fs : FS) (rules : List PyStr) (dp : PyStr) :
    ∀ (files : List PyStr) (d : SnapDict) (f : PyStr), f ∈ files →
    (!endswithPyc (dp ++ '/' :: f) && !rules.contains (dp ++ '/' :: f)) = true →
    dp ++ '/' :: f ∈ keys (fileFold fs rules dp files d)
  | [], _, f, hf, _ => absurd hf (List.not_mem_nil f)
  | g :: rest, d, f, hf, hcond => by
    simp only [fileFold, List.foldl_cons]
    rcases List.mem_cons.mp hf with rfl | hf'
    · apply mem_keys_fileFold_mono
      simp only [hcond, if_true]
      exact (mem_keys_dictInsert_iff _ _ _ _).mpr (Or.inr rfl)
    · exact mem_keys_fileFold_self fs rules dp rest _ f hf' hcond

theorem keys_fileFold_origin (fs : FS) (rules : List PyStr) (dp : PyStr) :
    ∀ (files : List PyStr) (d : SnapDict) (x : PyStr),
    x ∈ keys (fileFold fs rules dp files d) →
    x ∈ keys d ∨ ∃ f ∈ files, x = dp ++ '/' :: f
  | [], d, x, hx => Or.inl hx
  | f :: rest, d, x, hx => by
    simp only [fileFold, List.foldl_cons] at hx
    rcases keys_fileFold_origin fs rules dp rest _ x hx with h | ⟨g, hg, hgx⟩
    · by_cases hc : (!endswithPyc (dp ++ '/' :: f) && !rules.contains (dp ++ '/' :: f)) = true
      · simp only [hc, if_true] at h
        rcases (mem_keys_dictInsert_iff _ _ _ x).mp h with h' | h'
        · exact Or.inl h'
        · exact Or.inr ⟨f, List.mem_cons_self _ _, h'⟩
      · simp only [hc, if_false] at h
        exact Or.inl h
    · exact Or.inr ⟨g, List.mem_cons.mpr (Or.inr hg), hgx⟩

theorem mem_keys_refStep_mono (fs : FS) (rules : List PyStr) (d : SnapDict)
    (e : PyStr × List PyStr) (x : PyStr) (hx : x ∈ keys d) :
    x ∈ keys (refStep fs rules d e) := by
  obtain ⟨dp0, files⟩ := e
  unfold refStep
  by_cases hex : excludedB rules dp0 = true
  · simpa [hex] using hx
  · simp only [Bool.not_eq_true] at hex
    simp only [hex, Bool.false_eq_true, if_false]
    exact mem_keys_fileFold_mono fs rules _ files _ x
      ((mem_keys_dictInsert_iff _ _ _ x).mpr (Or.inl hx))

theorem keys_refStep_origin (fs : FS) (rules : List PyStr) (d : SnapDict)
    (dp0 : PyStr) (files : List PyStr) (x : PyStr)
    (hx : x ∈ keys (refStep fs rules d (dp0, files))) :
    x ∈ keys d ∨ (excludedB rules dp0 = false ∧
      (x = stripTrailing dp0 ∨ ∃ f ∈ files, x = stripTrailing dp0 ++ '/' :: f)) := by
  unfold refStep at hx
  by_cases hex : excludedB rules dp0 = true
  · simp only [hex, if_true] at hx
    exact Or.inl hx
  · simp only [Bool.not_eq_true] at hex
    simp only [hex, Bool.false_eq_true, if_false] at hx
    rcases keys_fileFold_origin fs rules _ files _ x hx with h | ⟨f, hf, hfx⟩
    · rcases (mem_keys_dictInsert_iff _ _ _ x).mp h with h' | h'
      · exact Or.inl h'
      · exact Or.inr ⟨hex, Or.inl h'⟩
    · exact Or.inr ⟨hex, Or.inr ⟨f, hf, hfx⟩⟩

theorem mem_keys_foldl_mono (fs : FS) (rules : List PyStr) :
    ∀ (wl : List (PyStr × List PyStr)) (d : SnapDict) (x : PyStr),
    x ∈ keys d → x ∈ keys (wl.foldl (refStep fs rules) d)
  | [], _, _, hx => hx
  | e :: rest, d, x, hx => by
    simp only [List.foldl_cons]
    exact mem_keys_foldl_mono fs rules rest _ x (mem_keys_refStep_mono fs rules d e x hx)

theorem keys_foldl_origin (fs : FS) (rules : List PyStr) :
    ∀ (wl : List (PyStr × List PyStr)) (d : SnapDict) (x : PyStr),
    x ∈ keys (wl.foldl (refStep fs rules) d) →
    x ∈ keys d ∨ ∃ e ∈ wl, excludedB rules e.1 = false ∧
      (x = stripTrailing e.1 ∨ ∃ f ∈ e.2, x = stripTrailing e.1 ++ '/' :: f)
  | [], _, _, hx => Or.inl hx
  | e :: rest, d, x, hx => by
    simp only [List.foldl_cons] at hx
    rcases keys_foldl_origin fs rules rest _ x hx with h | ⟨e', he', hprop⟩
    · obtain ⟨dp0, files⟩ := e
      rcases keys_refStep_origin fs rules d dp0 files x h with h' | h'
      · exact Or.inl h'
      · exact Or.inr ⟨(dp0, files), List.mem_cons_self _ _, h'⟩
    · exact Or.inr ⟨e', List.mem_cons.mpr (Or.inr he'), hprop⟩

theorem keys_snapshotRef_origin (fs : FS) (rules : List PyStr)
    (wl : List (PyStr × List PyStr)) (x : PyStr)
    (hx : x ∈ keys (snapshotRef fs wl rules)) :
    ∃ e ∈ wl, excludedB rules e.1 = false ∧
      (x = stripTrailing e.1 ∨ ∃ f ∈ e.2, x = stripTrailing e.1 ++ '/' :: f) := by
  rcases keys_foldl_origin fs rules wl [] x hx with h | h
  · simp [keys] at h
  · exact h

theorem mem_keys_snapshotRef_file (fs : FS) (rules : List PyStr)
    (wl : List (PyStr × List PyStr)) (dp0 : PyStr) (files : List PyStr) (f : PyStr)
    (hmem : (dp0, files) ∈ wl) (hex : excludedB rules dp0 = false) (hf : f ∈ files)
    (hcond : (!endswithPyc (stripTrailing dp0 ++ '/' :: f) &&
      !rules.contains (stripTrailing dp0 ++ '/' :: f)) = true) :
    stripTrailing dp0 ++ '/' :: f ∈ keys (snapshotRef fs wl rules) := by
  obtain ⟨s, t, rfl⟩ := List.append_of_mem hmem
  unfold snapshotRef
  rw [List.foldl_append, List.foldl_cons]
  apply mem_keys_foldl_mono
  unfold refStep
  simp only [hex, Bool.false_eq_true, if_false]
  exact mem_keys_fileFold_self fs rules _ files _ f hf hcond

/-! ### Remaining helper lemmas -/

theorem excludedB_iff (rules : List PyStr) (dp0 : PyStr) :
    excludedB rules dp0 = true ↔ ∃ r ∈ rules, ruleComps r ≤ dirComps dp0 := by
  simp [excludedB, List.any_eq_true]

theorem remove_ending_concat (p : PyStr) :
    remove_ending_bar_chars (p ++ ['/']) = .ok p := by
  have h1 : (p ++ ['/']).getLast? = some '/' := by simp
  cases hp : p ++ ['/'] with
  | nil => simp at hp
  | cons c cs =>
    simp only [remove_ending_bar_chars]
    rw [← hp, if_pos h1]
    simp

theorem remove_ending_noslash (p : PyStr) (h1 : p ≠ [])
    (h2 : p.getLast? ≠ some '/') : remove_ending_bar_chars p = .ok p := by
  cases p with
  | nil => exact absurd rfl h1
  | cons c cs =>
    simp only [remove_ending_bar_chars]
    rw [if_neg h2]

theorem fsMissing_resolvable : Resolvable fsMissing := by
  intro p st h
  simp [fsMissing] at h

theorem fsDemo_resolvable : Resolvable fsDemo := by
  intro p st h
  simp only [fsDemo] at h
  split at h
  · cases h; exact ⟨rfl, rfl⟩
  · split at h
    · cases h; exact ⟨rfl, rfl⟩
    · split at h
      · cases h; exact ⟨rfl, rfl⟩
      · cases h

theorem fsPerm_resolvable : Resolvable fsPerm := by
  intro p st h
  simp only [fsPerm] at h
  split at h
  · cases h; exact ⟨rfl, rfl⟩
  · split at h
    · cases h
    · cases h

theorem fsSetuid_resolvable : Resolvable fsSetuid := by
  intro p st h
  simp only [fsSetuid] at h
  split at h
  · cases h; exact ⟨rfl, rfl⟩
  · cases h

theorem fsLink_never_link : StatNeverLink fsLink := by
  intro p st h
  simp only [fsLink] at h
  split at h
  · cases h; decide
  · cases h

theorem fsLink_isdir_coherent : IsdirCoherent fsLink := by
  intro p h
  simp only [fsLink] at h ⊢
  rw [decide_eq_true_iff] at h
  exact ⟨⟨0, 1, 0o40755⟩, by rw [if_pos h]⟩

theorem firstMode_head_ne_l (m : Nat) (h : ¬ m &&& 0o120000 = 0o120000) :
    firstMode [(0o120000, 'l'), (0o100000, '-'), (0o060000, 'b'),
      (0o040000, 'd'), (0o020000, 'c'), (0o010000, 'p')] m ≠ 'l' := by
  have hb : (m &&& 0o120000 == 0o120000) = false := by
    simpa using h
  simp only [firstMode, hb, Bool.false_eq_true, if_false]
  split
  · decide
  · split
    · decide
    · split
      · decide
      · split
        · decide
        · split
          · decide
          · decide

theorem get_filemode_head (m : Nat) :
    (get_filemode m).head? =
      some (firstMode [(0o120000, 'l'), (0o100000, '-'), (0o060000, 'b'),
        (0o040000, 'd'), (0o020000, 'c'), (0o010000, 'p')] m) := by
  simp [get_filemode, _filemode_list]

theorem type_and_l (m : Nat) (h : (m &&& 0o170000) ∈ validStatTypes) :
    ¬ m &&& 0o120000 = 0o120000 := by
  have hlit : (0o170000 : Nat) &&& 0o120000 = 0o120000 := by decide
  have hassoc : m &&& 0o120000 = (m &&& 0o170000) &&& 0o120000 := by
    rw [Nat.and_assoc, hlit]
  intro hc
  rw [hassoc] at hc
  simp only [validStatTypes, List.mem_cons, List.not_mem_nil, or_false] at h
  rcases h with h | h | h | h | h | h <;> rw [h] at hc <;> exact absurd hc (by decide)

theorem modeOctal_all_oct (m : Nat) :
    (modeOctal m).all (fun c => "01234567".toList.contains c) = true := by
  rw [List.all_eq_true]
  intro c hc
  simpa using modeOctal_mem_oct m c hc

/-! ### The claims -/

/-- C1: during the walk, a visited directory is excluded (the ignore flag is
set and nothing is recorded for it) exactly when some exclusion rule's
separator-delimited component multiset is contained, with multiplicities and
irrespective of order or position, in the component multiset of the
normalized directory path. -/
theorem claim_C1_excluded_iff_multiset_containment
    (fs : FS) (rules : List PyStr) (d : SnapDict) (f0 : Bool)
    (dp0 : PyStr) (files : List PyStr)
    (hres : Resolvable fs) (h1 : dp0 ≠ []) (h2 : stripTrailing dp0 ≠ [])
    (hr : RulesWF rules) (h0 : rules = [] → f0 = false) :
    walkStep fs rules (d, f0) (dp0, files) =
      .ok (refStep fs rules d (dp0, files), excludedB rules dp0) ∧
    (excludedB rules dp0 = true ↔ ∃ r ∈ rules, ruleComps r ≤ dirComps dp0) ∧
    (excludedB rules dp0 = true → refStep fs rules d (dp0, files) = d) ∧
    (excludedB rules dp0 = false →
      stripTrailing dp0 ∈ keys (refStep fs rules d (dp0, files))) := by
  refine ⟨walkStep_eq fs rules d f0 dp0 files hres h1 h2 hr h0,
    excludedB_iff rules dp0, ?_, ?_⟩
  · intro hex
    simp only [refStep]
    rw [if_pos hex]
  · intro hex
    simp only [refStep, hex, Bool.false_eq_true, if_false]
    exact mem_keys_fileFold_mono fs rules _ files _ _
      ((mem_keys_dictInsert_iff _ _ _ _).mpr (Or.inr rfl))

/-- Witness for C1: the rule `a/b` excludes the directory `/a/c/b`, whose
component multiset contains the rule's components in a different
arrangement. -/
theorem claim_C1_witness :
    walkStep fsMissing ["a/b".toList] ([], false) ("/a/c/b".toList, []) =
      .ok ([], excludedB ["a/b".toList] "/a/c/b".toList) ∧
    excludedB ["a/b".toList] "/a/c/b".toList = true := by
  have h := claim_C1_excluded_iff_multiset_containment fsMissing ["a/b".toList]
    [] false "/a/c/b".toList [] fsMissing_resolvable (by decide) (by decide)
    (by decide) (by decide)
  have hstep : refStep fsMissing ["a/b".toList] [] ("/a/c/b".toList, []) = [] := by
    decide
  exact ⟨h.1.trans (by rw [hstep]), by decide⟩

/-- C2 counterexample: on the `/tmp/demo` tree with exclusion list
`["/tmp/demo/bin"]`, the walk does not return an empty snapshot. -/
theorem claim_C2_counterexample :
    get_current_items fsDemo wlDemo ["/tmp/demo/bin".toList] ≠ .ok ([] : SnapDict) := by
  decide

/-- C2 amended: on the `/tmp/demo` tree with exclusion list
`["/tmp/demo/bin"]`, the snapshot has exactly one entry — the root directory
`/tmp/demo` itself; only the excluded directory and its file are absent
(the rule's components are not all contained in the root's components, so
the root survives). -/
theorem claim_C2_amended_root_entry_remains :
    get_current_items fsDemo wlDemo ["/tmp/demo/bin".toList] = .ok snapDemoExcl := by
  decide

/-- C3 counterexample: on a vanished path the extractor returns the
dictionary whose five fields are all Python `None`, not the
single-character sentinel `'-'`. -/
theorem claim_C3_counterexample :
    get_data_information fsMissing "/gone".toList = .ok (some nullRec) ∧
    get_data_information fsMissing "/gone".toList ≠ .ok (some sentinelRec) := by
  decide

/-- C3 amended: when the status lookup reports a vanished path, the
extractor returns non-fatally an entry whose five descriptive fields are all
the null value `None`; the serialization loop leaves those `None` fields
unchanged (the `'-'` sentinel is substituted only when the whole record is
`None`, which is the permission-denied case). -/
theorem claim_C3_missing_path_null_fields (fs : FS) (item : PyStr)
    (h : fs.stat item = .notFound) :
    get_data_information fs item = .ok (some nullRec) ∧
    describeOf (some nullRec) = nullRec := by
  constructor
  · unfold get_data_information
    rw [h]
    rfl
  · rfl

/-- Witness for C3. -/
theorem claim_C3_witness :
    fsMissing.stat "/gone".toList = .notFound ∧
    (get_data_information fsMissing "/gone".toList = .ok (some nullRec) ∧
      describeOf (some nullRec) = nullRec) :=
  ⟨rfl, claim_C3_missing_path_null_fields fsMissing "/gone".toList rfl⟩

/-- C4 counterexample: a file whose stat is permission-denied is not dropped
from the snapshot — its path is a key of the returned mapping, bound to
Python `None`. -/
theorem claim_C4_counterexample :
    get_current_items fsPerm wlPerm [] = .ok snapPerm ∧
    "/r/f.txt".toList ∈ keys snapPerm := by
  decide

/-- C4 amended: on a permission-denied stat the extraction yields no usable
record (it returns `None`), but the path is not dropped: it remains a key of
the returned mapping. -/
theorem claim_C4_denied_key_retained (fs : FS) (wl : List (PyStr × List PyStr))
    (rules : List PyStr) (dp0 : PyStr) (files : List PyStr) (f : PyStr)
    (hres : Resolvable fs) (hwf : WalkWF wl) (hr : RulesWF rules)
    (hmem : (dp0, files) ∈ wl) (hex : excludedB rules dp0 = false) (hf : f ∈ files)
    (hcond : (!endswithPyc (stripTrailing dp0 ++ '/' :: f) &&
      !rules.contains (stripTrailing dp0 ++ '/' :: f)) = true)
    (hperm : fs.stat (stripTrailing dp0 ++ '/' :: f) = .permDenied) :
    get_data_information fs (stripTrailing dp0 ++ '/' :: f) = .ok none ∧
    get_current_items fs wl rules = .ok (snapshotRef fs wl rules) ∧
    stripTrailing dp0 ++ '/' :: f ∈ keys (snapshotRef fs wl rules) := by
  refine ⟨?_, get_current_items_eq fs wl rules hres hwf hr,
    mem_keys_snapshotRef_file fs rules wl dp0 files f hmem hex hf hcond⟩
  unfold get_data_information
  rw [hperm]

/-- Witness for C4. -/
theorem claim_C4_witness :
    get_data_information fsPerm (stripTrailing "/r".toList ++ '/' :: "f.txt".toList) =
      .ok none ∧
    get_current_items fsPerm wlPerm [] = .ok (snapshotRef fsPerm wlPerm []) ∧
    stripTrailing "/r".toList ++ '/' :: "f.txt".toList ∈
      keys (snapshotRef fsPerm wlPerm []) :=
  claim_C4_denied_key_retained fsPerm wlPerm [] "/r".toList ["f.txt".toList]
    "f.txt".toList fsPerm_resolvable (by decide) (by decide) (by decide)
    (by decide) (by decide) (by decide) (by decide)

/-- C5 counterexample: for the valid permission combination `0o005` the
octal mode string has two characters, not three. -/
theorem claim_C5_counterexample :
    get_data_information fsLowMode "/f".toList =
      .ok (some ⟨some "wazuh".toList, some "05".toList, some "file".toList,
        some "root".toList, some "-------r-x".toList⟩) ∧
    ("05".toList).length ≠ 3 := by
  decide

/-- C5 amended: for every successfully extracted entry the symbolic mode
string has exactly 10 characters and every character of the octal mode
string is an octal digit; the octal string has exactly 3 digits when the
permission value is at least `0o010`, and 2 digits (a leading `'0'` plus one
digit) when the permission value is below `0o010`. -/
theorem claim_C5_mode_string_shapes (fs : FS) (item : PyStr) (st : StatInfo)
    (user group : PyStr) (hst : fs.stat item = .found st)
    (hu : fs.getpwuid st.st_uid = some user)
    (hg : fs.getgrgid st.st_gid = some group) :
    get_data_information fs item = .ok (some
      ⟨some group, some (modeOctal st.st_mode),
        some (if fs.isdir item then "directory".toList else "file".toList),
        some user, some (get_filemode st.st_mode)⟩) ∧
    (get_filemode st.st_mode).length = 10 ∧
    (modeOctal st.st_mode).all (fun c => "01234567".toList.contains c) = true ∧
    (8 ≤ st.st_mode &&& 0o7777 → (modeOctal st.st_mode).length = 3) ∧
    (st.st_mode &&& 0o7777 < 8 → (modeOctal st.st_mode).length = 2) := by
  refine ⟨?_, get_filemode_length _, modeOctal_all_oct _, ?_, ?_⟩
  · unfold get_data_information
    rw [hst]
    dsimp only
    rw [hu]
    dsimp only
    rw [hg]
  · intro h8
    rw [modeOctal_length, if_neg (by omega)]
  · intro h8
    rw [modeOctal_length, if_pos h8]

/-- Witness for C5: a setuid executable with mode bits `0o4755`. -/
theorem claim_C5_witness :
    get_data_information fsSetuid "/s".toList = .ok (some
      ⟨some "wazuh".toList, some (modeOctal 0o104755),
        some (if fsSetuid.isdir "/s".toList then "directory".toList else "file".toList),
        some "root".toList, some (get_filemode 0o104755)⟩) ∧
    (get_filemode 0o104755).length = 10 ∧
    (modeOctal 0o104755).all (fun c => "01234567".toList.contains c) = true ∧
    (8 ≤ 0o104755 &&& 0o7777 → (modeOctal 0o104755).length = 3) ∧
    (0o104755 &&& 0o7777 < 8 → (modeOctal 0o104755).length = 2) :=
  claim_C5_mode_string_shapes fsSetuid "/s".toList ⟨0, 1, 0o104755⟩
    "root".toList "wazuh".toList (by decide) (by decide) (by decide)

/-- C6: whenever some exclusion rule's component multiset is contained in a
visited directory's component multiset, neither that directory's key nor any
key beneath it (the directory key followed by a separator and more
characters) appears in the returned snapshot. -/
theorem claim_C6_excluded_subtree_absent
    (fs : FS) (wl : List (PyStr × List PyStr)) (rules : List PyStr)
    (dp0 : PyStr) (files0 : List PyStr) (R : PyStr) (snap : SnapDict) (k : PyStr)
    (hres : Resolvable fs) (hwf : WalkWF wl) (hr : RulesWF rules)
    (hfiles : ∀ e ∈ wl, ∀ f ∈ e.2, '/' ∉ f)
    (hclash : ∀ e ∈ wl, ∀ f ∈ e.2, stripTrailing e.1 ++ '/' :: f ≠ stripTrailing dp0)
    (hmem : (dp0, files0) ∈ wl) (hR : R ∈ rules)
    (hmatch : ruleComps R ≤ dirComps dp0)
    (hsnap : get_current_items fs wl rules = .ok snap)
    (hk : k = stripTrailing dp0 ∨ ∃ rest, k = stripTrailing dp0 ++ '/' :: rest) :
    k ∉ keys snap := by
  have hs := get_current_items_eq fs wl rules hres hwf hr
  rw [hsnap] at hs
  have hsnap' : snap = snapshotRef fs wl rules := by
    injection hs
  subst hsnap'
  intro hkmem
  obtain ⟨e, he, hex, horigin⟩ := keys_snapshotRef_origin fs rules wl k hkmem
  have hD : stripTrailing dp0 ≠ [] := (hwf (dp0, files0) hmem).2
  have hstepcase : stripTrailing e.1 = stripTrailing dp0 ∨
      ∃ r', stripTrailing e.1 = stripTrailing dp0 ++ '/' :: r' := by
    rcases horigin with hdir | ⟨f, hf, hfk⟩
    · rcases hk with h | ⟨rest, h⟩
      · exact Or.inl (by rw [← hdir, h])
      · exact Or.inr ⟨rest, by rw [← hdir, h]⟩
    · have hfslash : '/' ∉ f := hfiles e he f hf
      rcases hk with h | ⟨rest, h⟩
      · exact absurd (by rw [← hfk, h] : stripTrailing e.1 ++ '/' :: f = stripTrailing dp0)
          (hclash e he f hf)
      · have heq : stripTrailing e.1 ++ '/' :: f = stripTrailing dp0 ++ '/' :: rest := by
          rw [← hfk, h]
        exact append_slash_cases _ f _ rest hfslash heq
  have hmain : ruleComps R ≤ dirComps e.1 := by
    have hbase : ruleComps R ≤ keyComps (stripTrailing dp0) := hmatch
    rcases hstepcase with h | ⟨r', h⟩
    · show ruleComps R ≤ keyComps (stripTrailing e.1)
      rw [h]
      exact hbase
    · show ruleComps R ≤ keyComps (stripTrailing e.1)
      rw [h]
      exact le_trans hbase (keyComps_le_extend _ r' hD)
  have hcontra : excludedB rules e.1 = true := (excludedB_iff rules e.1).mpr ⟨R, hR, hmain⟩
  rw [hex] at hcontra
  exact Bool.false_ne_true hcontra

/-- Witness for C6: on the `/tmp/demo` tree with rule `/tmp/demo/bin`, the
file key `/tmp/demo/bin/run.sh` beneath the matched directory is absent from
the snapshot. -/
theorem claim_C6_witness :
    "/tmp/demo/bin/run.sh".toList ∉ keys snapDemoExcl :=
  claim_C6_excluded_subtree_absent fsDemo wlDemo ["/tmp/demo/bin".toList]
    "/tmp/demo/bin".toList ["run.sh".toList] "/tmp/demo/bin".toList snapDemoExcl
    "/tmp/demo/bin/run.sh".toList fsDemo_resolvable (by decide) (by decide)
    (by decide) (by decide) (by decide) (by decide) (by decide) (by decide)
    (Or.inr ⟨"run.sh".toList, by decide⟩)

/-- C7 counterexample: when the owner id cannot be resolved, the extractor
does not return an entry at all — it raises `KeyError` — so the outcome is
neither the sentinel entry nor the null entry. -/
theorem claim_C7_counterexample :
    get_data_information fsUid "/u".toList = .error .keyError ∧
    get_data_information fsUid "/u".toList ≠ .ok (some sentinelRec) ∧
    get_data_information fsUid "/u".toList ≠ .ok (some nullRec) := by
  decide

/-- C7 amended: when the numeric owner or group id of a stat-able path
cannot be resolved to a name, the extractor raises an uncaught `KeyError`
(which aborts the walk), rather than returning a sentinel `unknown` entry. -/
theorem claim_C7_unresolved_id_raises (fs : FS) (item : PyStr) (st : StatInfo)
    (hst : fs.stat item = .found st)
    (hun : fs.getpwuid st.st_uid = none ∨ fs.getgrgid st.st_gid = none) :
    get_data_information fs item = .error .keyError := by
  unfold get_data_information
  rw [hst]
  dsimp only
  rcases hun with h | h
  · rw [h]
  · cases hu : fs.getpwuid st.st_uid with
    | none => rfl
    | some user =>
      dsimp only
      rw [h]

/-- Witness for C7. -/
theorem claim_C7_witness :
    get_data_information fsUid "/u".toList = .error .keyError :=
  claim_C7_unresolved_id_raises fsUid "/u".toList ⟨999, 1, 0o100644⟩
    (by decide) (Or.inl rfl)

/-- C8 counterexample: the snapshot key for the directory `/a` is `/a`
itself — the leading separator is not stripped before the path is used as a
map key, contrary to the claim that both separators are stripped for the
key. -/
theorem claim_C8_counterexample :
    get_current_items fsA [("/a".toList, [])] [] =
      .ok [("/a".toList, some recDir755)] ∧
    keys [(("/a".toList : PyStr), some recDir755)] = ["/a".toList] ∧
    ("/a".toList : PyStr) ≠ "a".toList := by
  decide

/-- C8 amended: only the trailing separator is stripped before a directory
path is used as a map key; the leading separator is stripped only for the
exclusion comparison.  Consequently `/a/b/` and `/a/b` are still treated
identically: one walk iteration behaves the same on both. -/
theorem claim_C8_trailing_sep_irrelevant (fs : FS) (rules : List PyStr)
    (st : SnapDict × Bool) (dp0 : PyStr) (files : List PyStr)
    (h1 : dp0 ≠ []) (h2 : dp0.getLast? ≠ some '/') :
    walkStep fs rules st (dp0 ++ ['/'], files) = walkStep fs rules st (dp0, files) := by
  obtain ⟨d, f0⟩ := st
  unfold walkStep
  dsimp only
  rw [remove_ending_concat dp0, remove_ending_noslash dp0 h1 h2]

/-- Witness for C8: `/a/b/` and `/a/b` produce identical walk iterations. -/
theorem claim_C8_witness :
    walkStep fsMissing [] ([], false) ("/a/b".toList ++ ['/'], []) =
      walkStep fsMissing [] ([], false) ("/a/b".toList, []) :=
  claim_C8_trailing_sep_irrelevant fsMissing [] ([], false) "/a/b".toList []
    (by decide) (by decide)

/-- C9: walking from the root path `/` raises an unhandled `IndexError` on
the first directory visited: stripping the trailing separator leaves the
empty string, and `remove_initial_bar_chars` indexes character 0 of it. -/
theorem claim_C9_root_path_raises (fs : FS) (files : List PyStr)
    (rest : List (PyStr × List PyStr)) (rules : List PyStr) :
    get_current_items fs (("/".toList, files) :: rest) rules =
      .error .indexError := rfl

/-- C10: the extractor reads status through the link-following `os.stat`, so
a record is always described from the link's target: a link to a directory
is typed `directory`, and the first character of the symbolic mode string is
never `'l'` — the link row of the type table is unreachable. -/
theorem claim_C10_symlink_resolved_no_l (fs : FS) (item : PyStr) (rec : Record)
    (hlink : StatNeverLink fs) (hco : IsdirCoherent fs)
    (hok : get_data_information fs item = .ok (some rec)) :
    (fs.isdir item = true → rec.type = some "directory".toList) ∧
    (rec.prot.getD []).head? ≠ some 'l' := by
  unfold get_data_information at hok
  cases hst : fs.stat item with
  | notFound =>
    rw [hst] at hok
    dsimp only at hok
    injection hok with h
    injection h with h2
    constructor
    · intro hdir
      obtain ⟨st, hstat⟩ := hco item hdir
      rw [hst] at hstat
      cases hstat
    · rw [← h2]
      decide
  | permDenied =>
    rw [hst] at hok
    dsimp only at hok
    injection hok with h
    cases h
  | found st =>
    rw [hst] at hok
    dsimp only at hok
    cases hu : fs.getpwuid st.st_uid with
    | none =>
      rw [hu] at hok
      cases hok
    | some user =>
      rw [hu] at hok
      dsimp only at hok
      cases hg : fs.getgrgid st.st_gid with
      | none =>
        rw [hg] at hok
        cases hok
      | some group =>
        rw [hg] at hok
        dsimp only at hok
        injection hok with h
        injection h with h2
        constructor
        · intro hdir
          rw [← h2, hdir]
          simp
        · rw [← h2]
          simp only [Option.getD_some]
          rw [get_filemode_head]
          intro hcontra
          injection hcontra with hc
          exact firstMode_head_ne_l st.st_mode
            (type_and_l st.st_mode (hlink item st hst)) hc

/-- Witness for C10: a symbolic link `/ln` to a directory gets the
directory record, whose symbolic mode starts with `'d'`, not `'l'`. -/
theorem claim_C10_witness :
    (fsLink.isdir "/ln".toList = true → recDir755.type = some "directory".toList) ∧
    (recDir755.prot.getD []).head? ≠ some 'l' :=
  claim_C10_symlink_resolved_no_l fsLink "/ln".toList recDir755
    fsLink_never_link fsLink_isdir_coherent (by decide)

end CheckFiles
